import Mathlib

/-!
Shallow embedding of `src/lib.rs` of the tarball-fetcher crate.

Modelling conventions:
* Byte buffers (`bytes::Bytes`, `Vec<u8>`, `&[u8]`) are `List Nat` (each element a byte value).
* Rust `String`/`&str` are Lean `String`; byte-slicing of the ASCII hex digests
  (`&hex[0..2]`, `&hex[2..]`) is character take/drop, which coincides on ASCII input.
* `PathBuf` is a list of path components; `PathBuf::push` of a relative component appends,
  and `to_string_lossy`/`to_str` joins components with "/".
* The filesystem store is the set of existing file paths (a list of path strings);
  `Path::exists` is membership, and `File::create` + `write_all` adds the path.
* External crates (ssri hashing, libdeflater, the tar entry parser, the HTTP client) are
  collaborators outside this repository; they enter the embedding as explicit backend
  parameters used exactly at the points the Rust code calls them.
* A Rust panic (`.unwrap()` on `Err`/`None`, integer-overflow panic, out-of-bounds
  slice index) is a distinguished `panicked` outcome, kept separate from `Err` returns.
-/

namespace TarballFetcher

/-- Byte buffers: a list of byte values. -/
abbrev Bytes := List Nat

/-- Character-list prefix test: `charsLead pre l` is true iff `pre` is a prefix of `l`.
Used to model Rust's `str::starts_with`. -/
def charsLead : List Char → List Char → Bool
  | [], _ => true
  | _ :: _, [] => false
  | p :: ps, c :: cs => (p = c) && charsLead ps cs

/-- Model of Rust `str::starts_with` (byte-prefix test; on ASCII, character prefix). -/
def starts_with (s pre : String) : Bool := charsLead pre.data s.data

/-- Character take on strings, modelling the byte slice `&s[0..n]` on ASCII input. -/
def strTake (s : String) (n : Nat) : String := String.mk (s.data.take n)

/-- Character drop on strings, modelling the byte slice `&s[n..]` on ASCII input. -/
def strDrop (s : String) (n : Nat) : String := String.mk (s.data.drop n)

/-- The two supported hash algorithms (`ssri::Algorithm` as used by `lib.rs`). -/
inductive Algorithm
  | Sha1
  | Sha512
deriving DecidableEq

/-- Interface of the external `ssri` crate, as called by `lib.rs`:
* `sha1hex b` — the lowercase hex encoding of the SHA-1 digest of `b`
  (`IntegrityOpts::new().algorithm(Sha1).chain(b).result().to_hex().1`);
* `sha512sri b` — the SRI string of the SHA-512 digest of `b`
  (`IntegrityOpts...result().to_string()`, of the form "sha512-<base64>");
* `sha512hex b` — the lowercase hex encoding of the SHA-512 digest of `b`
  (`...result().to_hex().1`);
* `parseToHex s` — `s.parse::<Integrity>()` followed by `.to_hex().1`
  (`none` models a parse failure, which the Rust code unwraps into a panic). -/
structure HashBackend where
  sha1hex : Bytes → String
  sha512sri : Bytes → String
  sha512hex : Bytes → String
  parseToHex : String → Option String

/-- Embedding of `calc_hash` (lib.rs lines 72-90): the sha1 branch formats
"sha1-{hex digest}", the sha512 branch takes the SRI string form. The Rust
function returns `Result` but never constructs an `Err`. -/
def calc_hash (H : HashBackend) (data : Bytes) (algorithm : Algorithm) : String :=
  if algorithm = Algorithm.Sha1 then
    "sha1-" ++ H.sha1hex data
  else
    H.sha512sri data

/-- The algorithm `verify_checksum` selects from the expected digest string
(lib.rs lines 57-61): sha1 iff the string starts with "sha1", else sha512. -/
def selected_algorithm (expeced_checksum : String) : Algorithm :=
  if starts_with expeced_checksum "sha1" then Algorithm.Sha1 else Algorithm.Sha512

/-- Embedding of `verify_checksum` (lib.rs lines 48-70): pick the algorithm by
string-prefix sniffing, compute the digest string, compare for exact string
equality; on mismatch return the computed string for diagnostics. The Rust
function returns `Result` but never constructs an `Err`. -/
def verify_checksum (H : HashBackend) (response : Bytes) (expeced_checksum : String) :
    Bool × Option String :=
  let algorithm := selected_algorithm expeced_checksum
  let calculated_checksum := calc_hash H response algorithm
  if calculated_checksum = expeced_checksum then
    (true, none)
  else
    (false, some calculated_checksum)

/-- Model of `std::path::PathBuf`: a list of (relative) path components. -/
abbrev PathBuf := List String

/-- Rust `PathBuf::push` of a relative component. -/
def pathPush (p : PathBuf) (s : String) : PathBuf := p ++ [s]

/-- Rust `Path::to_str` / `to_string_lossy`: components joined with "/". -/
def pathToString : PathBuf → String
  | [] => ""
  | [c] => c
  | c :: rest => c ++ "/" ++ pathToString rest

/-- The `FileType` enum of lib.rs (lines 173-177). -/
inductive FileType
  | Exec
  | NonExec
  | Index

/-- Embedding of `content_path_from_hex` (lib.rs lines 179-192): push the first
two hex characters as a directory, then the remaining hex characters with the
kind-specific suffix as the filename. The Rust code's `&hex[0..2]` panics when
`hex` has fewer than 2 bytes; theorems about this function therefore assume
`2 ≤ hex.length` (every real digest is 40 or 128 hex characters). -/
def content_path_from_hex (file_type : FileType) (hex : String) : PathBuf :=
  let p : PathBuf := []
  let p := pathPush p (strTake hex 2)
  let extension := match file_type with
    | FileType.Exec => "-exec"
    | FileType.NonExec => ""
    | FileType.Index => "-index.json"
  pathPush p (strDrop hex 2 ++ extension)

/-- Interface of the external `libdeflater` crate: given the gzip data and the
size of the preallocated output buffer, either the decompressed bytes or `none`
for a decompression error (bad stream, wrong buffer size). -/
structure GzipBackend where
  gzip_decompress : Bytes → Nat → Option Bytes

/-- Outcome of `decompress_gzip`: a Rust panic, a clean `Err` return, or `Ok`. -/
inductive DecompressOutcome
  | panicked
  | failed
  | ok (out : Bytes)
deriving DecidableEq

/-- Little-endian u32 from (up to) four bytes, modelling `u32::from_le_bytes`. -/
def u32_from_le_bytes (b : List Nat) : Nat :=
  b.getD 0 0 + 256 * b.getD 1 0 + 65536 * b.getD 2 0 + 16777216 * b.getD 3 0

/-- Embedding of `decompress_gzip` (lib.rs lines 98-117). The Rust code computes
`gz_data.len() - 4` with no length guard: on input shorter than 4 bytes the
`usize` subtraction underflows and panics in a debug build, and in a release
build it wraps so the slice index `gz_data[isize_start..]` panics — either way a
panic, modelled as `panicked`, not a clean `Err`. Otherwise the trailing 4 bytes
give the output size, a buffer of exactly that size is preallocated, and the
external decompressor fills it. -/
def decompress_gzip (G : GzipBackend) (gz_data : Bytes) : DecompressOutcome :=
  if gz_data.length < 4 then
    DecompressOutcome.panicked
  else
    let isize_start := gz_data.length - 4
    let isize := u32_from_le_bytes (gz_data.drop isize_start)
    match G.gzip_decompress gz_data isize with
    | none => DecompressOutcome.failed
    | some out => DecompressOutcome.ok out

/-- Kind of a tar entry as recorded in its header. `extract_tarball` never
inspects this field (there is no entry-type check in the loop of lines 129-164),
but the archive records it; it is carried so that claims about non-regular
entries can be stated. -/
inductive EntryType
  | regular
  | directory
  | symlink
  | hardlink
deriving DecidableEq

/-- One parsed tar entry, the view the `tar` crate gives to the loop body:
`path` is the recorded entry path, `mode` the recorded permission bits
(never read by `extract_tarball`), `etype` the recorded entry kind
(never read by `extract_tarball`), and `contents` the bytes that
`entry.read_to_end` yields — the file body for regular files, and the empty
buffer for directories, symlinks and hardlinks, whose header size is 0. -/
structure Entry where
  path : String
  mode : Nat
  etype : EntryType
  contents : Bytes
deriving DecidableEq

/-- Interface of the external `tar` crate: `Archive::new(..).entries()` as a
list of successfully parsed entries of the archive bytes. -/
structure TarBackend where
  entriesOf : Bytes → List Entry

/-- The filesystem store: the set (as a list) of file paths that exist. -/
abbrev Store := List String

/-- Model of `std::path::Path::exists` on the store. -/
def store_has (store : Store) (p : String) : Bool := store.any (fun q => q == p)

/-- The `cas_file_map` HashMap, modelled as an association list. -/
abbrev Index := List (String × String)

/-- `HashMap::insert` semantics: replace an existing binding for the key,
otherwise append the new binding. -/
def indexInsert (m : Index) (k v : String) : Index :=
  if m.any (fun kv => kv.1 == k) then
    m.map (fun kv => if kv.1 == k then (k, v) else kv)
  else
    m ++ [(k, v)]

/-- Key membership in the index (`HashMap::contains_key`). -/
def containsKey (m : Index) (k : String) : Bool := m.any (fun kv => kv.1 == k)

/-- Key lookup in the index (`HashMap::get`). -/
def indexLookup (m : Index) (k : String) : Option String :=
  (m.find? (fun kv => kv.1 == k)).map (fun kv => kv.2)

/-- The `STORE_DIR` constant (lib.rs line 17). -/
def STORE_DIR : String := "pnpm-store"

/-- Splitting a character list at a separator, modelling the component split
of a path string on the '/' separator. -/
def splitChars (sep : Char) : List Char → List (List Char)
  | [] => [[]]
  | c :: cs =>
    let rest := splitChars sep cs
    if c = sep then [] :: rest
    else
      match rest with
      | [] => [[c]]
      | r :: rs => (c :: r) :: rs

/-- Model of Rust `Path::components` for the relative paths recorded in tar
archives: split on '/', drop empty components (repeated or trailing
separators), and drop non-leading "." components, as `Components` does. -/
def pathComponents (s : String) : List String :=
  match ((splitChars '/' s.data).map String.mk).filter (fun c => c ≠ "") with
  | [] => []
  | c :: rest => c :: rest.filter (fun c => c ≠ ".")

/-- The index key derived from an entry path (lib.rs lines 136-138, 161):
`entry.path().components().skip(1).collect::<PathBuf>()` rendered by `to_str`. -/
def cleaned_path (p : String) : String := pathToString ((pathComponents p).drop 1)

/-- The store path string built for an entry body (lib.rs lines 140-146):
`PathBuf::from(STORE_DIR).join(content_path_from_hex(FileType::NonExec, hex))`
where `hex` is the sha512 hex digest of the buffer, rendered by
`to_string_lossy`. The kind is always `NonExec`; the entry's mode is not
consulted. -/
def content_file_path (H : HashBackend) (buffer : Bytes) : String :=
  pathToString (STORE_DIR :: content_path_from_hex FileType.NonExec (H.sha512hex buffer))

/-- State threaded through the entry loop of `extract_tarball`: the
accumulated `cas_file_map`, the filesystem store, and the list of content
object paths this run has created (in creation order). -/
structure ExtractState where
  cas_file_map : Index
  store : Store
  written : List String

/-- One iteration of the entry loop (lib.rs lines 129-164): read the entry
body, hash it, derive the store path, create the file there only if no file
exists at that path, and map the stripped entry path to the store path. -/
def extract_entry (H : HashBackend) (st : ExtractState) (entry : Entry) : ExtractState :=
  let buffer := entry.contents
  let file_path := content_file_path H buffer
  let st1 :=
    if store_has st.store file_path then st
    else { st with store := file_path :: st.store, written := st.written ++ [file_path] }
  { st1 with cas_file_map := indexInsert st1.cas_file_map (cleaned_path entry.path) file_path }

/-- Result of `extract_tarball`: the returned `cas_file_map`, the store after
the run, the content-object paths created by the run, and the path of the index
file written at the end. -/
structure ExtractResult where
  cas_file_map : Index
  store : Store
  written : List String
  index_path : String

/-- Embedding of `extract_tarball` (lib.rs lines 119-171): fold the entry loop
over the archive entries starting from an empty map, then write the serialized
map to `PathBuf::from(STORE_DIR).join(index_location)` (`std::fs::write`
creates or truncates unconditionally, so afterwards that path exists). -/
def extract_tarball (H : HashBackend) (index_location : PathBuf) (data : List Entry)
    (store0 : Store) : ExtractResult :=
  let final := data.foldl (extract_entry H) ⟨[], store0, []⟩
  let dir := pathToString (STORE_DIR :: index_location)
  { cas_file_map := final.cas_file_map,
    store := if store_has final.store dir then final.store else dir :: final.store,
    written := final.written,
    index_path := dir }

/-- Outcome of `fetch_tarball`: the error return of lines 31-36 (with the
store untouched and nothing written), the successful return of the
`cas_file_map`, or a panic from one of the `.unwrap()` calls. -/
inductive FetchOutcome
  | fetchError (msg : String) (store : Store) (written : List String)
  | success (cas_file_map : Index) (store : Store) (written : List String)
  | panicked
deriving DecidableEq

/-- Embedding of `fetch_tarball` (lib.rs lines 24-46), taking the already
fetched response bytes (the network fetch is the external HTTP client):
verify the checksum first; on mismatch return the "Tarball verification
failed" error before anything is decompressed, extracted or written.
Otherwise decompress (an `Err` is unwrapped into a panic), parse the
integrity string to its hex form (panic on failure), derive the index file
location with kind `Index`, and run the extraction. -/
def fetch_tarball (H : HashBackend) (G : GzipBackend) (T : TarBackend)
    (response : Bytes) (integrity : String) (store : Store) : FetchOutcome :=
  let vc := verify_checksum H response integrity
  if !vc.1 then
    FetchOutcome.fetchError "Tarball verification failed" store []
  else
    match decompress_gzip G response with
    | DecompressOutcome.panicked => FetchOutcome.panicked
    | DecompressOutcome.failed => FetchOutcome.panicked
    | DecompressOutcome.ok decompressed =>
      match H.parseToHex integrity with
      | none => FetchOutcome.panicked
      | some hexstr =>
        let index_location := content_path_from_hex FileType.Index hexstr
        let r := extract_tarball H index_location (T.entriesOf decompressed) store
        FetchOutcome.success r.cas_file_map r.store r.written

/-- Hex digit character for a value below 16. -/
def hexDigit (n : Nat) : Char :=
  Char.ofNat (if n < 10 then 48 + n else 87 + n)

/-- A concrete toy digest in lowercase hex used to instantiate the hash
backend in witnesses: four fixed leading characters (so the result always has
more than the two characters the sharding slices off) followed by one hex
character per input byte. -/
def toyHexString (b : Bytes) : String :=
  String.mk ('a' :: 'b' :: 'c' :: 'd' :: b.map (fun n => hexDigit (n % 16)))

/-- A concrete, fully computable instantiation of the hashing interface, used
to evaluate the theorems on concrete inputs. -/
def toyHash : HashBackend where
  sha1hex := fun b => toyHexString b
  sha512sri := fun b => "sha512-" ++ toyHexString b
  sha512hex := fun b => toyHexString b
  parseToHex := fun s => some (strDrop s 7)

/-- A concrete decompressor backend for witnesses. -/
def trivialGzip : GzipBackend where
  gzip_decompress := fun _ _ => none

/-- A concrete tar backend for witnesses. -/
def trivialTar : TarBackend where
  entriesOf := fun _ => []

/-! Helper lemmas about the string model. -/

/-- A string that starts with "sha512-" does not start with "sha1"
(their fourth characters differ). -/
theorem charsLead_sha512_not_sha1 (l : List Char)
    (h : charsLead "sha512-".data l = true) :
    charsLead "sha1".data l = false := by
  show charsLead ['s','h','a','1'] l = false
  have h2 : charsLead ['s','h','a','5','1','2','-'] l = true := h
  match l with
  | [] => simp [charsLead] at h2
  | [a] => simp [charsLead] at h2
  | [a, b] => simp [charsLead] at h2
  | [a, b, c] => simp [charsLead] at h2
  | a :: b :: c :: d :: rest =>
    simp [charsLead] at h2 ⊢
    obtain ⟨ha, hb, hc, hd, _⟩ := h2
    intro _ _ _
    subst hd
    decide

/-- String version of the prefix-disambiguation lemma. -/
theorem starts_with_sha512_not_sha1 (s : String)
    (h : starts_with s "sha512-" = true) : starts_with s "sha1" = false :=
  charsLead_sha512_not_sha1 s.data h

/-- Any string of the form "sha1-" ++ x starts with "sha1". -/
theorem starts_with_sha1_dash (x : String) :
    starts_with ("sha1-" ++ x) "sha1" = true := by
  cases x with
  | mk d => simp [starts_with, charsLead]

/-- Left cancellation for string append. -/
theorem str_append_cancel (a b c : String) (h : a ++ b = a ++ c) : b = c := by
  cases a with | mk d => ?_
  cases b with | mk e => ?_
  cases c with | mk f => ?_
  have hd : d ++ e = d ++ f := congrArg String.data h
  exact congrArg String.mk (List.append_cancel_left hd)

/-- Appending the empty string is the identity. -/
theorem str_append_empty (a : String) : a ++ "" = a := by
  cases a with | mk d => ?_
  show String.mk (d ++ []) = String.mk d
  rw [List.append_nil]

/-- Associativity of string append. -/
theorem str_append_assoc (a b c : String) : (a ++ b) ++ c = a ++ (b ++ c) := by
  cases a with | mk d => ?_
  cases b with | mk e => ?_
  cases c with | mk f => ?_
  show String.mk ((d ++ e) ++ f) = String.mk (d ++ (e ++ f))
  rw [List.append_assoc]

/-! Claim theorems about the verifier, the content addresser, the
decompressor and the pipeline ordering. -/

/-- C2: verifying a buffer against its own sha512 SRI digest string succeeds
with `(true, none)`; verifying against any expected string whose
same-algorithm digest over the buffer differs returns `(false, some actual)`
where `actual` is the computed digest string and `actual ≠ expected`. -/
theorem verify_checksum_correct (H : HashBackend) (b : Bytes) (d : String) :
    (d = H.sha512sri b → starts_with d "sha512-" = true →
      verify_checksum H b d = (true, none)) ∧
    (calc_hash H b (selected_algorithm d) ≠ d →
      verify_checksum H b d = (false, some (calc_hash H b (selected_algorithm d))) ∧
      calc_hash H b (selected_algorithm d) ≠ d) := by
  constructor
  · intro hd hp
    subst hd
    have h1 : starts_with (H.sha512sri b) "sha1" = false :=
      starts_with_sha512_not_sha1 _ hp
    have halg : selected_algorithm (H.sha512sri b) = Algorithm.Sha512 := by
      simp [selected_algorithm, h1]
    simp [verify_checksum, halg, calc_hash]
  · intro hne
    exact ⟨by simp [verify_checksum, hne], hne⟩

/-- Witness for C2 at concrete inputs. -/
theorem verify_checksum_correct_witness :
    verify_checksum toyHash [1, 2] (toyHash.sha512sri [1, 2]) = (true, none) ∧
    verify_checksum toyHash [1, 2] "sha512-zz" =
      (false, some (calc_hash toyHash [1, 2] (selected_algorithm "sha512-zz"))) :=
  ⟨(verify_checksum_correct toyHash [1, 2] (toyHash.sha512sri [1, 2])).1 rfl (by decide),
   ((verify_checksum_correct toyHash [1, 2] "sha512-zz").2 (by decide)).1⟩

/-- C10: for a "sha1"-tagged expected string the comparison string is exactly
"sha1-" followed by the hex (not base64) sha1 digest of the bytes, so
verification succeeds for the hex form and fails for any other "sha1-"-tagged
string — in particular for the standard base64 SRI sha1 form, which differs
from the hex form. -/
theorem verify_checksum_sha1_hex_form (H : HashBackend) (b : Bytes) (s : String)
    (hne : s ≠ H.sha1hex b) :
    calc_hash H b Algorithm.Sha1 = "sha1-" ++ H.sha1hex b ∧
    verify_checksum H b ("sha1-" ++ H.sha1hex b) = (true, none) ∧
    verify_checksum H b ("sha1-" ++ s) = (false, some ("sha1-" ++ H.sha1hex b)) := by
  refine ⟨by simp [calc_hash], ?_, ?_⟩
  · have h1 : starts_with ("sha1-" ++ H.sha1hex b) "sha1" = true := starts_with_sha1_dash _
    have halg : selected_algorithm ("sha1-" ++ H.sha1hex b) = Algorithm.Sha1 := by
      simp [selected_algorithm, h1]
    simp [verify_checksum, halg, calc_hash]
  · have h1 : starts_with ("sha1-" ++ s) "sha1" = true := starts_with_sha1_dash _
    have halg : selected_algorithm ("sha1-" ++ s) = Algorithm.Sha1 := by
      simp [selected_algorithm, h1]
    have hne2 : "sha1-" ++ H.sha1hex b ≠ "sha1-" ++ s := by
      intro he
      exact hne (str_append_cancel _ _ _ he).symm
    simp [verify_checksum, halg, calc_hash, hne2]

/-- Witness for C10 at concrete inputs. -/
theorem verify_checksum_sha1_hex_form_witness :
    verify_checksum toyHash [3] ("sha1-" ++ toyHash.sha1hex [3]) = (true, none) ∧
    verify_checksum toyHash [3] ("sha1-" ++ "deadbeef") =
      (false, some ("sha1-" ++ toyHash.sha1hex [3])) :=
  ⟨(verify_checksum_sha1_hex_form toyHash [3] "deadbeef" (by decide)).2.1,
   (verify_checksum_sha1_hex_form toyHash [3] "deadbeef" (by decide)).2.2⟩

/-- C5: `content_path_from_hex` is a pure function whose result is the first
two hex characters as the directory component and the remaining hex characters
plus the kind-specific suffix ("" / "-exec" / "-index.json") as the filename;
identical digest and kind always yield the identical path. -/
theorem content_path_from_hex_sharding (t : FileType) (hex : String)
    (h : 2 ≤ hex.length) :
    content_path_from_hex t hex =
      [strTake hex 2,
       strDrop hex 2 ++ (match t with
         | FileType.Exec => "-exec"
         | FileType.NonExec => ""
         | FileType.Index => "-index.json")] ∧
    (∀ t2 hex2, t2 = t → hex2 = hex →
      content_path_from_hex t2 hex2 = content_path_from_hex t hex) := by
  refine ⟨?_, ?_⟩
  · cases t <;> rfl
  · intro t2 hex2 ht hh
    rw [ht, hh]

/-- Witness for C5 at the hex digest of the repository's own unit test. -/
theorem content_path_from_hex_sharding_witness :
    2 ≤ ("1234567890abcdef1234567890abcdef12345678" : String).length ∧
    content_path_from_hex FileType.NonExec "1234567890abcdef1234567890abcdef12345678" =
      [strTake "1234567890abcdef1234567890abcdef12345678" 2,
       strDrop "1234567890abcdef1234567890abcdef12345678" 2 ++ ""] ∧
    content_path_from_hex FileType.NonExec "1234567890abcdef1234567890abcdef12345678" =
      ["12", "34567890abcdef1234567890abcdef12345678"] :=
  ⟨by decide,
   (content_path_from_hex_sharding FileType.NonExec
     "1234567890abcdef1234567890abcdef12345678" (by decide)).1,
   by decide⟩

/-- C4: on any input shorter than 4 bytes, `decompress_gzip` does not fail
with a clean error: the unguarded `gz_data.len() - 4` offset computation
underflows and the function panics. -/
theorem decompress_gzip_short_input_panics (G : GzipBackend) (b : Bytes)
    (h : b.length < 4) :
    decompress_gzip G b = DecompressOutcome.panicked := by
  simp [decompress_gzip, h]

/-- Witness for C4 at a concrete 2-byte input (the gzip magic bytes alone). -/
theorem decompress_gzip_short_input_panics_witness :
    ([31, 139] : Bytes).length < 4 ∧
    decompress_gzip trivialGzip [31, 139] = DecompressOutcome.panicked :=
  ⟨by decide, decompress_gzip_short_input_panics trivialGzip [31, 139] (by decide)⟩

/-- C1: whenever the computed digest of the response does not match the
expected integrity string, `fetch_tarball` returns the verification error
before any decompression or extraction — for every decompressor and tar
backend the outcome is the same error, the store is unchanged, and no
content object or index file has been written. -/
theorem fetch_tarball_stops_on_integrity_failure (H : HashBackend) (G : GzipBackend)
    (T : TarBackend) (response : Bytes) (integrity : String) (store : Store)
    (c : String) (h : verify_checksum H response integrity = (false, some c)) :
    fetch_tarball H G T response integrity store =
      FetchOutcome.fetchError "Tarball verification failed" store [] := by
  simp [fetch_tarball, h]

/-- Witness for C1 at a concrete mismatching digest. -/
theorem fetch_tarball_stops_on_integrity_failure_witness :
    verify_checksum toyHash [1] "sha512-nope" = (false, some "sha512-abcd1") ∧
    fetch_tarball toyHash trivialGzip trivialTar [1] "sha512-nope" ["existing"] =
      FetchOutcome.fetchError "Tarball verification failed" ["existing"] [] :=
  ⟨by decide,
   fetch_tarball_stops_on_integrity_failure toyHash trivialGzip trivialTar [1]
     "sha512-nope" ["existing"] "sha512-abcd1" (by decide)⟩

/-! Helper lemmas about the store, the index and the extraction loop. -/

/-- Membership check on a store after adding one path. -/
theorem store_has_cons (q p : String) (s : Store) :
    store_has (q :: s) p = ((q == p) || store_has s p) := by
  simp [store_has]

/-- Every element of an index after an insert is an old element or the new
binding. -/
theorem mem_indexInsert (m : Index) (k v : String) (kv : String × String)
    (h : kv ∈ indexInsert m k v) : kv ∈ m ∨ kv = (k, v) := by
  unfold indexInsert at h
  split at h
  · obtain ⟨x, hx, hfx⟩ := List.mem_map.mp h
    split at hfx
    · exact Or.inr hfx.symm
    · exact Or.inl (hfx ▸ hx)
  · rcases List.mem_append.mp h with h1 | h2
    · exact Or.inl h1
    · exact Or.inr (by simpa using h2)

/-- After inserting a binding for `k`, the index contains the key `k`. -/
theorem containsKey_indexInsert_self (m : Index) (k v : String) :
    containsKey (indexInsert m k v) k = true := by
  unfold containsKey indexInsert
  split
  case isTrue hc =>
    rw [List.any_eq_true] at hc ⊢
    obtain ⟨x, hx, hpx⟩ := hc
    exact ⟨(k, v), List.mem_map.mpr ⟨x, hx, if_pos hpx⟩, by simp⟩
  case isFalse hc =>
    rw [List.any_eq_true]
    exact ⟨(k, v), List.mem_append.mpr (Or.inr (by simp)), by simp⟩

/-- Inserting a binding never removes a key. -/
theorem containsKey_indexInsert_mono (m : Index) (k v k2 : String)
    (h : containsKey m k2 = true) : containsKey (indexInsert m k v) k2 = true := by
  unfold containsKey at h ⊢
  unfold indexInsert
  split
  case isTrue hc =>
    rw [List.any_eq_true] at h ⊢
    obtain ⟨x, hx, hpx⟩ := h
    by_cases hk : (x.1 == k) = true
    · refine ⟨(k, v), List.mem_map.mpr ⟨x, hx, if_pos hk⟩, ?_⟩
      have e1 : x.1 = k := by simpa using hk
      have e2 : x.1 = k2 := by simpa using hpx
      have : k = k2 := e1 ▸ e2
      exact beq_iff_eq.mpr this
    · exact ⟨x, List.mem_map.mpr ⟨x, hx, if_neg hk⟩, hpx⟩
  case isFalse hc =>
    rw [List.any_eq_true] at h ⊢
    obtain ⟨x, hx, hpx⟩ := h
    exact ⟨x, List.mem_append.mpr (Or.inl hx), hpx⟩

/-- The map update performed by one loop iteration, independent of the store. -/
theorem extract_entry_cas (H : HashBackend) (st : ExtractState) (e : Entry) :
    (extract_entry H st e).cas_file_map =
      indexInsert st.cas_file_map (cleaned_path e.path) (content_file_path H e.contents) := by
  by_cases hc : store_has st.store (content_file_path H e.contents) = true
  · simp [extract_entry, hc]
  · simp [extract_entry, hc]

/-- The store update performed by one loop iteration: write-if-absent. -/
theorem extract_entry_store (H : HashBackend) (st : ExtractState) (e : Entry) :
    (extract_entry H st e).store =
      (if store_has st.store (content_file_path H e.contents) then st.store
       else content_file_path H e.contents :: st.store) := by
  by_cases hc : store_has st.store (content_file_path H e.contents) = true
  · simp [extract_entry, hc]
  · simp [extract_entry, hc]

/-- The write log of one loop iteration: a new path only when it was absent. -/
theorem extract_entry_written (H : HashBackend) (st : ExtractState) (e : Entry) :
    (extract_entry H st e).written =
      (if store_has st.store (content_file_path H e.contents) then st.written
       else st.written ++ [content_file_path H e.contents]) := by
  by_cases hc : store_has st.store (content_file_path H e.contents) = true
  · simp [extract_entry, hc]
  · simp [extract_entry, hc]

/-- One loop iteration never removes a path from the store. -/
theorem extract_entry_store_mono (H : HashBackend) (st : ExtractState) (e : Entry)
    (p : String) (h : store_has st.store p = true) :
    store_has (extract_entry H st e).store p = true := by
  rw [extract_entry_store]
  split
  · exact h
  · rw [store_has_cons, h]
    simp

/-- After one loop iteration the entry's content path exists in the store. -/
theorem extract_entry_adds (H : HashBackend) (st : ExtractState) (e : Entry) :
    store_has (extract_entry H st e).store (content_file_path H e.contents) = true := by
  rw [extract_entry_store]
  split
  case isTrue hc => exact hc
  case isFalse hc =>
    rw [store_has_cons]
    simp

/-- The `cas_file_map` produced by the loop depends only on the entries and the
initial map, not on the store or the write log. -/
theorem fold_cas_eq (H : HashBackend) (es : List Entry) :
    ∀ st st2 : ExtractState, st.cas_file_map = st2.cas_file_map →
      (es.foldl (extract_entry H) st).cas_file_map =
      (es.foldl (extract_entry H) st2).cas_file_map := by
  induction es with
  | nil => intro st st2 h; simpa using h
  | cons e tl ih =>
    intro st st2 h
    rw [List.foldl_cons, List.foldl_cons]
    apply ih
    rw [extract_entry_cas, extract_entry_cas, h]

/-- The loop never removes a path from the store. -/
theorem fold_store_mono (H : HashBackend) (es : List Entry) :
    ∀ (st : ExtractState) (p : String), store_has st.store p = true →
      store_has ((es.foldl (extract_entry H) st).store) p = true := by
  induction es with
  | nil => intro st p h; exact h
  | cons e tl ih =>
    intro st p h
    rw [List.foldl_cons]
    exact ih _ p (extract_entry_store_mono H st e p h)

/-- After the loop, the content path of every processed entry exists in the
store. -/
theorem fold_store_contains (H : HashBackend) (es : List Entry) :
    ∀ (st : ExtractState) (e : Entry), e ∈ es →
      store_has ((es.foldl (extract_entry H) st).store)
        (content_file_path H e.contents) = true := by
  induction es with
  | nil => intro st e h; simp at h
  | cons e0 tl ih =>
    intro st e h
    rw [List.foldl_cons]
    rcases List.mem_cons.mp h with he | htl
    · rw [he]
      exact fold_store_mono H tl _ _ (extract_entry_adds H st e0)
    · exact ih _ e htl

/-- If every entry's content path already exists in the store, the loop leaves
the store unchanged and creates nothing. -/
theorem fold_no_new_writes (H : HashBackend) (es : List Entry) :
    ∀ st : ExtractState,
      (∀ e ∈ es, store_has st.store (content_file_path H e.contents) = true) →
      (es.foldl (extract_entry H) st).store = st.store ∧
      (es.foldl (extract_entry H) st).written = st.written := by
  induction es with
  | nil => intro st _; exact ⟨rfl, rfl⟩
  | cons e0 tl ih =>
    intro st h
    have h0 : store_has st.store (content_file_path H e0.contents) = true :=
      h e0 (List.mem_cons_self e0 tl)
    have hst : (extract_entry H st e0).store = st.store := by
      rw [extract_entry_store, if_pos h0]
    have hwr : (extract_entry H st e0).written = st.written := by
      rw [extract_entry_written, if_pos h0]
    rw [List.foldl_cons]
    have htl := ih (extract_entry H st e0) (fun e he => by
      rw [hst]
      exact h e (List.mem_cons_of_mem e0 he))
    rw [hst, hwr] at htl
    exact htl

/-- The loop never removes a key from the map. -/
theorem fold_containsKey_mono (H : HashBackend) (es : List Entry) :
    ∀ (st : ExtractState) (k : String), containsKey st.cas_file_map k = true →
      containsKey ((es.foldl (extract_entry H) st).cas_file_map) k = true := by
  induction es with
  | nil => intro st k h; exact h
  | cons e tl ih =>
    intro st k h
    rw [List.foldl_cons]
    apply ih
    rw [extract_entry_cas]
    exact containsKey_indexInsert_mono _ _ _ _ h

/-- After the loop, the stripped path of every processed entry is a key of the
map. -/
theorem fold_contains_key (H : HashBackend) (es : List Entry) :
    ∀ (st : ExtractState) (e : Entry), e ∈ es →
      containsKey ((es.foldl (extract_entry H) st).cas_file_map)
        (cleaned_path e.path) = true := by
  induction es with
  | nil => intro st e h; simp at h
  | cons e0 tl ih =>
    intro st e h
    rw [List.foldl_cons]
    rcases List.mem_cons.mp h with he | htl
    · rw [he]
      apply fold_containsKey_mono
      rw [extract_entry_cas]
      exact containsKey_indexInsert_self _ _ _
    · exact ih _ e htl

/-- Every binding the loop produces is an initial binding or the stripped path
and content path of one of the processed entries. -/
theorem fold_cas_pairs (H : HashBackend) (es : List Entry) :
    ∀ (st : ExtractState) (kv : String × String),
      kv ∈ (es.foldl (extract_entry H) st).cas_file_map →
      kv ∈ st.cas_file_map ∨
        ∃ e, e ∈ es ∧ kv = (cleaned_path e.path, content_file_path H e.contents) := by
  induction es with
  | nil => intro st kv h; exact Or.inl h
  | cons e0 tl ih =>
    intro st kv h
    rw [List.foldl_cons] at h
    rcases ih _ kv h with hmem | ⟨e, he, hkv⟩
    · rw [extract_entry_cas] at hmem
      rcases mem_indexInsert _ _ _ _ hmem with h1 | h2
      · exact Or.inl h1
      · exact Or.inr ⟨e0, List.mem_cons_self e0 tl, h2⟩
    · exact Or.inr ⟨e, List.mem_cons_of_mem e0 he, hkv⟩

/-- Projection of `extract_tarball`: the returned map is the loop's map. -/
theorem extract_tarball_cas (H : HashBackend) (loc : PathBuf) (data : List Entry)
    (store0 : Store) :
    (extract_tarball H loc data store0).cas_file_map =
      (data.foldl (extract_entry H) ⟨[], store0, []⟩).cas_file_map := rfl

/-- Projection of `extract_tarball`: the write log is the loop's write log. -/
theorem extract_tarball_written_eq (H : HashBackend) (loc : PathBuf) (data : List Entry)
    (store0 : Store) :
    (extract_tarball H loc data store0).written =
      (data.foldl (extract_entry H) ⟨[], store0, []⟩).written := rfl

/-- Projection of `extract_tarball`: the final store is the loop's store plus
the index file path. -/
theorem extract_tarball_store_eq (H : HashBackend) (loc : PathBuf) (data : List Entry)
    (store0 : Store) :
    (extract_tarball H loc data store0).store =
      (if store_has (data.foldl (extract_entry H) ⟨[], store0, []⟩).store
            (pathToString (STORE_DIR :: loc))
       then (data.foldl (extract_entry H) ⟨[], store0, []⟩).store
       else pathToString (STORE_DIR :: loc) ::
            (data.foldl (extract_entry H) ⟨[], store0, []⟩).store) := rfl

/-! Claim theorems about `extract_tarball`. -/

/-- C3: extracting the same archive twice into the same store yields the
identical `cas_file_map` both times, the second run creates zero new content
objects, and the second run leaves the store exactly as the first run left
it (write-if-absent skips every entry). -/
theorem extract_tarball_idempotent (H : HashBackend) (loc : PathBuf)
    (data : List Entry) (store0 : Store) :
    (extract_tarball H loc data (extract_tarball H loc data store0).store).cas_file_map
      = (extract_tarball H loc data store0).cas_file_map ∧
    (extract_tarball H loc data (extract_tarball H loc data store0).store).written = [] ∧
    (extract_tarball H loc data (extract_tarball H loc data store0).store).store
      = (extract_tarball H loc data store0).store := by
  have hs1mem : ∀ e ∈ data,
      store_has (extract_tarball H loc data store0).store
        (content_file_path H e.contents) = true := by
    intro e he
    rw [extract_tarball_store_eq]
    have hin := fold_store_contains H data ⟨[], store0, []⟩ e he
    split
    · exact hin
    · rw [store_has_cons, hin]
      simp
  have hdirmem : store_has (extract_tarball H loc data store0).store
      (pathToString (STORE_DIR :: loc)) = true := by
    rw [extract_tarball_store_eq]
    split
    case isTrue hc => exact hc
    case isFalse hc =>
      rw [store_has_cons]
      simp
  have hnn := fold_no_new_writes H data
    ⟨[], (extract_tarball H loc data store0).store, []⟩ (fun e he => hs1mem e he)
  refine ⟨?_, ?_, ?_⟩
  · rw [extract_tarball_cas, extract_tarball_cas]
    exact fold_cas_eq H data _ _ rfl
  · rw [extract_tarball_written_eq]
    exact hnn.2
  · rw [extract_tarball_store_eq, hnn.1]
    exact if_pos hdirmem

/-- A one-entry archive whose only entry is the directory `root/sub/`
(mode 0o755, empty contents, as the tar reader yields for a directory). -/
def dirArchive : List Entry :=
  [{ path := "root/sub/", mode := 493, etype := EntryType.directory, contents := [] }]

/-- C6 counterexample: the entry loop has no entry-type check, so a directory
entry is not skipped — its stripped path "sub" appears as an index key and a
content object (for its empty body) is written to the store. -/
theorem extract_tarball_directory_not_skipped_cex :
    dirArchive.head?.map Entry.etype = some EntryType.directory ∧
    containsKey (extract_tarball toyHash ["aa", "bb"] dirArchive []).cas_file_map
      "sub" = true ∧
    (extract_tarball toyHash ["aa", "bb"] dirArchive []).written ≠ [] :=
  ⟨rfl, by decide, by decide⟩

/-- C6 amended: directory and non-regular entries are not skipped by
`extract_tarball`: every entry of the archive, whatever its recorded type, has
its stripped path as a key of the returned index (its empty body is hashed and
stored like a regular file's). -/
theorem extract_tarball_indexes_nonregular_entries (H : HashBackend) (loc : PathBuf)
    (data : List Entry) (store0 : Store) (e : Entry) (he : e ∈ data)
    (ht : e.etype = EntryType.directory ∨ e.etype = EntryType.symlink) :
    containsKey (extract_tarball H loc data store0).cas_file_map
      (cleaned_path e.path) = true := by
  rw [extract_tarball_cas]
  exact fold_contains_key H data _ e he

/-- Witness for the amended C6 at the concrete directory archive. -/
theorem extract_tarball_indexes_nonregular_entries_witness :
    containsKey (extract_tarball toyHash ["aa", "bb"] dirArchive []).cas_file_map
      (cleaned_path "root/sub/") = true :=
  extract_tarball_indexes_nonregular_entries toyHash ["aa", "bb"] dirArchive []
    { path := "root/sub/", mode := 493, etype := EntryType.directory, contents := [] }
    (by decide) (Or.inl rfl)

/-- A one-entry archive whose only entry is a regular file with the executable
permission bits 0o755. -/
def execArchive : List Entry :=
  [{ path := "root/run.sh", mode := 493, etype := EntryType.regular, contents := [104] }]

/-- C7 counterexample: for an entry whose mode 0o755 has the owner-executable
bit set, the derived store path is the non-executable one; it differs from the
executable-kind path (no "-exec" suffix is ever produced). -/
theorem extract_tarball_exec_entry_nonexec_cex :
    Nat.testBit 493 6 = true ∧
    indexLookup (extract_tarball toyHash ["aa", "bb"] execArchive []).cas_file_map
        "run.sh" =
      some (pathToString (STORE_DIR ::
        content_path_from_hex FileType.NonExec (toyHash.sha512hex [104]))) ∧
    pathToString (STORE_DIR ::
        content_path_from_hex FileType.NonExec (toyHash.sha512hex [104])) ≠
      pathToString (STORE_DIR ::
        content_path_from_hex FileType.Exec (toyHash.sha512hex [104])) :=
  ⟨by decide, by decide, by decide⟩

/-- C7 amended: `extract_tarball` never consults the entry's permission bits:
every value of the returned index is a store path derived with the
non-executable kind, including for entries recorded as executable. -/
theorem extract_tarball_always_nonexec (H : HashBackend) (loc : PathBuf)
    (data : List Entry) (store0 : Store) (kv : String × String)
    (hkv : kv ∈ (extract_tarball H loc data store0).cas_file_map) :
    ∃ e, e ∈ data ∧
      kv.2 = pathToString (STORE_DIR ::
        content_path_from_hex FileType.NonExec (H.sha512hex e.contents)) := by
  rw [extract_tarball_cas] at hkv
  rcases fold_cas_pairs H data _ kv hkv with h0 | ⟨e, he, hkv2⟩
  · simp at h0
  · exact ⟨e, he, by rw [hkv2]; rfl⟩

/-- Witness for the amended C7 at the concrete executable-entry archive. -/
theorem extract_tarball_always_nonexec_witness :
    ∃ e, e ∈ execArchive ∧
      ("run.sh", "pnpm-store/ab/cd8").2 = pathToString (STORE_DIR ::
        content_path_from_hex FileType.NonExec (toyHash.sha512hex e.contents)) :=
  extract_tarball_always_nonexec toyHash ["aa", "bb"] execArchive []
    ("run.sh", "pnpm-store/ab/cd8") (by decide)

/-- C8: the index key of every extracted entry is the entry's archive path with
its first component removed, and every key of the index arises that way. -/
theorem extract_tarball_strips_first_component (H : HashBackend) (loc : PathBuf)
    (data : List Entry) (store0 : Store) (e : Entry) (he : e ∈ data) :
    containsKey (extract_tarball H loc data store0).cas_file_map
      (cleaned_path e.path) = true ∧
    ∀ kv ∈ (extract_tarball H loc data store0).cas_file_map,
      ∃ e2, e2 ∈ data ∧ kv.1 = cleaned_path e2.path := by
  constructor
  · rw [extract_tarball_cas]
    exact fold_contains_key H data _ e he
  · intro kv hkv
    rw [extract_tarball_cas] at hkv
    rcases fold_cas_pairs H data _ kv hkv with h0 | ⟨e2, he2, hkv2⟩
    · simp at h0
    · exact ⟨e2, he2, by rw [hkv2]⟩

/-- A one-entry archive with the path-stripping example of the specification. -/
def stripArchive : List Entry :=
  [{ path := "root-seg/lib/index.js", mode := 420, etype := EntryType.regular,
     contents := [104, 105] }]

/-- Witness for C8: an entry recorded as "root-seg/lib/index.js" is indexed
under the key "lib/index.js". -/
theorem extract_tarball_strips_first_component_witness :
    cleaned_path "root-seg/lib/index.js" = "lib/index.js" ∧
    containsKey (extract_tarball toyHash ["aa", "bb"] stripArchive []).cas_file_map
      (cleaned_path "root-seg/lib/index.js") = true :=
  ⟨by decide,
   (extract_tarball_strips_first_component toyHash ["aa", "bb"] stripArchive []
     { path := "root-seg/lib/index.js", mode := 420, etype := EntryType.regular,
       contents := [104, 105] } (by decide)).1⟩

/-- A one-entry archive holding `root/a.txt` with contents "hi". -/
def hiArchive : List Entry :=
  [{ path := "root/a.txt", mode := 420, etype := EntryType.regular,
     contents := [104, 105] }]

/-- C9 counterexample: the index value stored for "a.txt" is the store path
joined under the `pnpm-store` root directory, not the bare
"<first-2-hex-chars>/<remaining-hex-chars>" form the claim states. -/
theorem extract_tarball_index_value_form_cex :
    indexLookup (extract_tarball toyHash ["aa", "bb"] hiArchive []).cas_file_map
      "a.txt" = some "pnpm-store/ab/cd89" ∧
    "pnpm-store/ab/cd89" ≠
      strTake (toyHash.sha512hex [104, 105]) 2 ++ "/" ++
        strDrop (toyHash.sha512hex [104, 105]) 2 :=
  ⟨by decide, by decide⟩

/-- C9 amended: every value of the returned index is the sharded store path of
the entry's sha512 hex digest prefixed with the store root directory:
"pnpm-store/<first-2-hex-chars>/<remaining-hex-chars>". -/
theorem extract_tarball_index_values_store_prefixed (H : HashBackend) (loc : PathBuf)
    (data : List Entry) (store0 : Store) (kv : String × String)
    (hkv : kv ∈ (extract_tarball H loc data store0).cas_file_map) :
    ∃ e, e ∈ data ∧
      kv.2 = STORE_DIR ++ "/" ++
        (strTake (H.sha512hex e.contents) 2 ++ "/" ++
         strDrop (H.sha512hex e.contents) 2) := by
  rw [extract_tarball_cas] at hkv
  rcases fold_cas_pairs H data _ kv hkv with h0 | ⟨e, he, hkv2⟩
  · simp at h0
  · refine ⟨e, he, ?_⟩
    rw [hkv2]
    show content_file_path H e.contents = _
    unfold content_file_path content_path_from_hex pathPush
    simp [pathToString, str_append_empty]

/-- Witness for the amended C9 at the concrete "hi" archive. -/
theorem extract_tarball_index_values_store_prefixed_witness :
    ∃ e, e ∈ hiArchive ∧
      ("a.txt", "pnpm-store/ab/cd89").2 = STORE_DIR ++ "/" ++
        (strTake (toyHash.sha512hex e.contents) 2 ++ "/" ++
         strDrop (toyHash.sha512hex e.contents) 2) :=
  extract_tarball_index_values_store_prefixed toyHash ["aa", "bb"] hiArchive []
    ("a.txt", "pnpm-store/ab/cd89") (by decide)

end TarballFetcher

